import Mathlib

/-!
Verification of the request/response core of the `hardhat` EDR repository.

The development embeds, as executable Lean definitions:
* the RLP encoding produced by the `RlpEncodable`/`RlpDecodable` derives on
  `Eip2930SignedTransaction` (src/crates/edr_eth/src/transaction/signed/eip2930.rs),
  following the alloy-rlp wire format;
* the Keccak-256 hash used by `Eip2930SignedTransaction::hash`;
* the dispatcher `Provider::handle_request` (src/crates/edr_napi/src/provider.rs),
  with its external collaborators (request parser, request classifier, logger,
  execution engine, JSON serializer) passed in as explicit functions;
* the JSON-RPC method-invocation (de)serialization rules exercised by
  src/crates/edr_provider/tests/eth_request_serialization.rs.
-/

namespace EdrSpec

/-! ## Big-endian byte strings -/

/-- Fuel-driven worker for `natToBeBytes`; any fuel of at least `n` steps
computes the full representation. -/
def natToBeBytesAux : Nat → Nat → List Nat
  | _, 0 => []
  | 0, _ + 1 => []
  | fuel + 1, n + 1 => natToBeBytesAux fuel ((n + 1) / 256) ++ [(n + 1) % 256]

/-- Minimal big-endian byte representation of a natural number; `0` maps to `[]`.
This is the integer payload format used by alloy-rlp. -/
def natToBeBytes (n : Nat) : List Nat :=
  natToBeBytesAux n n

/-- Interpret a big-endian byte string as a natural number. -/
def beBytesToNat (l : List Nat) : Nat :=
  l.foldl (fun acc b => acc * 256 + b) 0

/-- Fixed-width (`k`-byte) big-endian representation, zero padded on the left.
This is how fixed-size byte arrays (`Address`, `B256`) appear on the wire. -/
def natToFixedBytes (k n : Nat) : List Nat :=
  List.replicate (k - (natToBeBytes n).length) 0 ++ natToBeBytes n

/-! ## RLP encoding (alloy-rlp) -/

/-- RLP encoding of a byte string. -/
def rlpEncodeBytes : List Nat → List Nat
  | [] => [0x80]
  | [x] => if x < 0x80 then [x] else [0x81, x]
  | x :: y :: rest =>
    let b := x :: y :: rest
    if b.length ≤ 55 then (0x80 + b.length) :: b
    else (0xb7 + (natToBeBytes b.length).length) :: (natToBeBytes b.length ++ b)

/-- RLP header for a list whose encoded payload is `payload`. -/
def rlpEncodeList (payload : List Nat) : List Nat :=
  if payload.length ≤ 55 then (0xc0 + payload.length) :: payload
  else (0xf7 + (natToBeBytes payload.length).length) :: (natToBeBytes payload.length ++ payload)

/-- RLP encoding of an unsigned integer: minimal big-endian bytes as a string. -/
def rlpEncodeNat (n : Nat) : List Nat :=
  rlpEncodeBytes (natToBeBytes n)

/-- RLP encoding of a fixed-width byte array holding the number `n`. -/
def rlpEncodeFixed (k n : Nat) : List Nat :=
  rlpEncodeBytes (natToFixedBytes k n)

/-- RLP encoding of a boolean: `true ↦ 0x01`, `false ↦ 0x80` (alloy-rlp). -/
def rlpEncodeBool (b : Bool) : List Nat :=
  if b then [0x01] else [0x80]

/-- Decode one RLP byte string from the front of the input, enforcing the
canonicality rules alloy-rlp enforces (single bytes below `0x80` must be
encoded as themselves; long-form lengths have no leading zero and exceed 55).
Returns the payload and the unconsumed remainder. -/
def rlpDecodeBytes : List Nat → Option (List Nat × List Nat)
  | [] => none
  | b :: rest =>
    if b < 0x80 then some ([b], rest)
    else if b ≤ 0xb7 then
      let len := b - 0x80
      if rest.length < len then none
      else
        let payload := rest.take len
        if len = 1 ∧ payload.headI < 0x80 then none
        else some (payload, rest.drop len)
    else if b ≤ 0xbf then
      let lenlen := b - 0xb7
      if rest.length < lenlen then none
      else
        let lenBytes := rest.take lenlen
        if lenBytes.headI = 0 then none
        else
          let len := beBytesToNat lenBytes
          if len ≤ 55 then none
          else
            let rest2 := rest.drop lenlen
            if rest2.length < len then none
            else some (rest2.take len, rest2.drop len)
    else none

/-- Decode one RLP list header from the front of the input; returns the payload
length and the input positioned at the start of the payload, after checking
that enough bytes are available. -/
def rlpDecodeListHeader : List Nat → Option (Nat × List Nat)
  | [] => none
  | b :: rest =>
    if b < 0xc0 then none
    else if b ≤ 0xf7 then
      let len := b - 0xc0
      if rest.length < len then none else some (len, rest)
    else
      let lenlen := b - 0xf7
      if rest.length < lenlen then none
      else
        let lenBytes := rest.take lenlen
        if lenBytes.headI = 0 then none
        else
          let len := beBytesToNat lenBytes
          if len ≤ 55 then none
          else
            let rest2 := rest.drop lenlen
            if rest2.length < len then none
            else some (len, rest2)

/-- Decode an RLP unsigned integer of at most `maxBytes` bytes (leading zeros
rejected, as alloy-rlp does for `u64`/`U256`). -/
def rlpDecodeNat (maxBytes : Nat) (input : List Nat) : Option (Nat × List Nat) :=
  match rlpDecodeBytes input with
  | none => none
  | some (payload, rest) =>
    if payload.length > maxBytes then none
    else if payload.headI = 0 ∧ payload ≠ [] then none
    else some (beBytesToNat payload, rest)

/-- Decode an RLP fixed-width (`k`-byte) byte array. -/
def rlpDecodeFixed (k : Nat) (input : List Nat) : Option (Nat × List Nat) :=
  match rlpDecodeBytes input with
  | none => none
  | some (payload, rest) =>
    if payload.length = k then some (beBytesToNat payload, rest) else none

/-- Decode an RLP boolean (`0 ↦ false`, `1 ↦ true`, anything else rejected). -/
def rlpDecodeBool (input : List Nat) : Option (Bool × List Nat) :=
  match rlpDecodeNat 1 input with
  | none => none
  | some (0, rest) => some (false, rest)
  | some (1, rest) => some (true, rest)
  | some (_, _) => none

/-! ## Transaction data model (eip2930.rs) -/

/-- Modelled from the spec: `TransactionKind` (edr_eth transaction/kind.rs is not
under src/) — the destination is either "contract creation" or "call to address";
on the wire a call is a 20-byte array and a creation is the empty byte string. -/
inductive TransactionKind where
  | create
  | call (address : Nat)
deriving DecidableEq

/-- Modelled from the spec: `AccessListItem` (edr_eth access_list.rs is not under
src/) — an address together with an ordered sequence of 32-byte storage keys. -/
structure AccessListItem where
  address : Nat
  storage_keys : List Nat
deriving DecidableEq

/-- The access-list signed transaction envelope of eip2930.rs. Field order is
the declaration order, which fixes the RLP encoding and decoding order. The cached
identity hash (`OnceLock<B256>` in the source, skipped by RLP and serde) is an
`Option` holding the 32 digest bytes once populated. -/
structure Eip2930SignedTransaction where
  chain_id : Nat
  nonce : Nat
  gas_price : Nat
  gas_limit : Nat
  kind : TransactionKind
  value : Nat
  input : List Nat
  access_list : List AccessListItem
  odd_y_parity : Bool
  r : Nat
  s : Nat
  hash : Option (List Nat)
deriving DecidableEq

/-- Concatenation of the encodings of a list of elements (the payload of an
RLP-encoded sequence). -/
def concatMap (f : α → List Nat) : List α → List Nat
  | [] => []
  | x :: xs => f x ++ concatMap f xs

/-- RLP encoding of a `TransactionKind`. -/
def rlpEncodeKind : TransactionKind → List Nat
  | .create => rlpEncodeBytes []
  | .call a => rlpEncodeFixed 20 a

/-- RLP decoding of a `TransactionKind`: the empty string is a creation, a
20-byte string is a call, anything else is rejected. -/
def rlpDecodeKind (input : List Nat) : Option (TransactionKind × List Nat) :=
  match rlpDecodeBytes input with
  | none => none
  | some (payload, rest) =>
    if payload.length = 0 then some (.create, rest)
    else if payload.length = 20 then some (.call (beBytesToNat payload), rest)
    else none

/-- RLP encoding of one access-list item: a two-element list of the address and
the list of storage keys. -/
def rlpEncodeAccessItem (item : AccessListItem) : List Nat :=
  rlpEncodeList
    (rlpEncodeFixed 20 item.address ++
      rlpEncodeList (concatMap (rlpEncodeFixed 32) item.storage_keys))

/-- RLP encoding of the access list. -/
def rlpEncodeAccessList (al : List AccessListItem) : List Nat :=
  rlpEncodeList (concatMap rlpEncodeAccessItem al)

/-- Decode a sequence of 32-byte storage keys until the payload is exhausted;
`fuel` bounds the number of elements. -/
def rlpDecodeKeys : Nat → List Nat → Option (List Nat)
  | _, [] => some []
  | 0, _ :: _ => none
  | fuel + 1, b :: rest0 =>
    match rlpDecodeFixed 32 (b :: rest0) with
    | none => none
    | some (n, rest) =>
      match rlpDecodeKeys fuel rest with
      | none => none
      | some ns => some (n :: ns)

/-- Decode one access-list item (a nested two-element list). -/
def rlpDecodeAccessItem (input : List Nat) : Option (AccessListItem × List Nat) :=
  match rlpDecodeListHeader input with
  | none => none
  | some (plen, rest) =>
    let payload := rest.take plen
    let remaining := rest.drop plen
    match rlpDecodeFixed 20 payload with
    | none => none
    | some (addr, afterAddr) =>
      match rlpDecodeListHeader afterAddr with
      | none => none
      | some (klen, krest) =>
        if krest.drop klen ≠ [] then none
        else
          match rlpDecodeKeys (krest.take klen).length (krest.take klen) with
          | none => none
          | some keys => some ({ address := addr, storage_keys := keys }, remaining)

/-- Decode a sequence of access-list items until the payload is exhausted;
`fuel` bounds the number of elements. -/
def rlpDecodeAccessItems : Nat → List Nat → Option (List AccessListItem)
  | _, [] => some []
  | 0, _ :: _ => none
  | fuel + 1, b :: rest0 =>
    match rlpDecodeAccessItem (b :: rest0) with
    | none => none
    | some (item, rest) =>
      match rlpDecodeAccessItems fuel rest with
      | none => none
      | some items => some (item :: items)

/-- The RLP payload of a signed EIP-2930 transaction: the concatenation of the
field encodings, in declaration order (eip2930.rs: the order of these fields
determines the encoding order); the cached hash is skipped (`#[rlp(skip)]`). -/
def txPayload (tx : Eip2930SignedTransaction) : List Nat :=
  rlpEncodeNat tx.chain_id ++ rlpEncodeNat tx.nonce ++ rlpEncodeNat tx.gas_price ++
    rlpEncodeNat tx.gas_limit ++ rlpEncodeKind tx.kind ++ rlpEncodeNat tx.value ++
    rlpEncodeBytes tx.input ++ rlpEncodeAccessList tx.access_list ++
    rlpEncodeBool tx.odd_y_parity ++ rlpEncodeNat tx.r ++ rlpEncodeNat tx.s

/-- Canonical RLP encoding of a signed EIP-2930 transaction
(`alloy_rlp::encode` on the derived `RlpEncodable`). -/
def encodeTx (tx : Eip2930SignedTransaction) : List Nat :=
  rlpEncodeList (txPayload tx)

/-- RLP decoding of a signed EIP-2930 transaction (the derived `RlpDecodable`):
read the list header, decode every field in declaration order from the payload,
require the payload to be consumed exactly, and leave the cached hash empty
(`#[rlp(default)]`). Returns the unconsumed remainder of the input. -/
def decodeTx (input : List Nat) : Option (Eip2930SignedTransaction × List Nat) :=
  match rlpDecodeListHeader input with
  | none => none
  | some (plen, rest) =>
    match rlpDecodeNat 8 (rest.take plen) with
    | none => none
    | some (chainId, p0) =>
    match rlpDecodeNat 8 p0 with
    | none => none
    | some (nonceV, p1) =>
    match rlpDecodeNat 32 p1 with
    | none => none
    | some (gasPrice, p2) =>
    match rlpDecodeNat 8 p2 with
    | none => none
    | some (gasLimit, p3) =>
    match rlpDecodeKind p3 with
    | none => none
    | some (kindV, p4) =>
    match rlpDecodeNat 32 p4 with
    | none => none
    | some (valueV, p5) =>
    match rlpDecodeBytes p5 with
    | none => none
    | some (inputV, p6) =>
    match rlpDecodeListHeader p6 with
    | none => none
    | some (alLen, p7) =>
    match rlpDecodeAccessItems (p7.take alLen).length (p7.take alLen) with
    | none => none
    | some al =>
    match rlpDecodeBool (p7.drop alLen) with
    | none => none
    | some (parity, p9) =>
    match rlpDecodeNat 32 p9 with
    | none => none
    | some (rV, p10) =>
    match rlpDecodeNat 32 p10 with
    | none => none
    | some (sV, p11) =>
    if p11 = [] then
      some ({ chain_id := chainId, nonce := nonceV, gas_price := gasPrice,
              gas_limit := gasLimit, kind := kindV, value := valueV, input := inputV,
              access_list := al, odd_y_parity := parity, r := rV, s := sV,
              hash := none }, rest.drop plen)
    else none

/-- The equality of eip2930.rs's manual `PartialEq` impl: structural over the
eleven protocol fields, never looking at the cached hash. -/
def txEq (a b : Eip2930SignedTransaction) : Bool :=
  decide (a.chain_id = b.chain_id) && decide (a.nonce = b.nonce) &&
    decide (a.gas_price = b.gas_price) && decide (a.gas_limit = b.gas_limit) &&
    decide (a.kind = b.kind) && decide (a.value = b.value) &&
    decide (a.input = b.input) && decide (a.access_list = b.access_list) &&
    decide (a.odd_y_parity = b.odd_y_parity) && decide (a.r = b.r) &&
    decide (a.s = b.s)

/-- Protocol-legal field ranges for a signed EIP-2930 transaction: 64-bit
quantities fit in 8 bytes, 256-bit quantities in 32 bytes, addresses in
20 bytes, and the variable-length parts have bounded size. -/
def txWf (tx : Eip2930SignedTransaction) : Bool :=
  decide (tx.chain_id < 256 ^ 8) && decide (tx.nonce < 256 ^ 8) &&
    decide (tx.gas_price < 256 ^ 32) && decide (tx.gas_limit < 256 ^ 8) &&
    (match tx.kind with
     | .create => true
     | .call a => decide (a < 256 ^ 20)) &&
    decide (tx.value < 256 ^ 32) && decide (tx.input.length < 2 ^ 32) &&
    decide (tx.access_list.length < 2 ^ 16) &&
    tx.access_list.all (fun item =>
      decide (item.address < 256 ^ 20) && decide (item.storage_keys.length < 2 ^ 16) &&
        item.storage_keys.all (fun k => decide (k < 256 ^ 32))) &&
    decide (tx.r < 256 ^ 32) && decide (tx.s < 256 ^ 32)

/-! ## Keccak-256 (`alloy_primitives::keccak256`)

64-bit lanes are `Nat`s kept below `2 ^ 64`; the state is a flat list of 25
lanes indexed `x + 5 * y`. -/

/-- Left rotation of a 64-bit lane. -/
def rotl64 (n k : Nat) : Nat :=
  ((n <<< k) ||| (n >>> (64 - k))) % 2 ^ 64

/-- Lane `(x, y)` of a Keccak state. -/
def getLane (s : List Nat) (x y : Nat) : Nat :=
  s.getD (x + 5 * y) 0

/-- The θ step of Keccak-f[1600]. -/
def keccakTheta (s : List Nat) : List Nat :=
  let c := (List.range 5).map fun x =>
    getLane s x 0 ^^^ getLane s x 1 ^^^ getLane s x 2 ^^^ getLane s x 3 ^^^ getLane s x 4
  let d := (List.range 5).map fun x =>
    c.getD ((x + 4) % 5) 0 ^^^ rotl64 (c.getD ((x + 1) % 5) 0) 1
  (List.range 25).map fun i => s.getD i 0 ^^^ d.getD (i % 5) 0

/-- The per-lane rotation offset of the ρ step for the lane at `x + 5 * y`. -/
def rhoOffset : Nat → Nat
  | 1 => 1
  | 2 => 62
  | 3 => 28
  | 4 => 27
  | 5 => 36
  | 6 => 44
  | 7 => 6
  | 8 => 55
  | 9 => 20
  | 10 => 3
  | 11 => 10
  | 12 => 43
  | 13 => 25
  | 14 => 39
  | 15 => 41
  | 16 => 45
  | 17 => 15
  | 18 => 21
  | 19 => 8
  | 20 => 18
  | 21 => 2
  | 22 => 61
  | 23 => 56
  | 24 => 14
  | _ => 0

/-- The combined ρ and π steps: output lane `(x, y)` is the rotation of input
lane `((x + 3y) mod 5, x)` by its ρ offset. -/
def keccakRhoPi (s : List Nat) : List Nat :=
  (List.range 25).map fun i =>
    let x := i % 5
    let y := i / 5
    let sx := (x + 3 * y) % 5
    let sy := x
    rotl64 (getLane s sx sy) (rhoOffset (sx + 5 * sy))

/-- The χ step. -/
def keccakChi (s : List Nat) : List Nat :=
  (List.range 25).map fun i =>
    let x := i % 5
    let y := i / 5
    s.getD i 0 ^^^ ((getLane s ((x + 1) % 5) y ^^^ 0xFFFFFFFFFFFFFFFF) &&& getLane s ((x + 2) % 5) y)

/-- The ι round constant of round `i` of Keccak-f[1600]. -/
def keccakRoundConstant : Nat → Nat
  | 0 => 0x1
  | 1 => 0x8082
  | 2 => 0x800000000000808a
  | 3 => 0x8000000080008000
  | 4 => 0x808b
  | 5 => 0x80000001
  | 6 => 0x8000000080008081
  | 7 => 0x8000000000008009
  | 8 => 0x8a
  | 9 => 0x88
  | 10 => 0x80008009
  | 11 => 0x8000000a
  | 12 => 0x8000808b
  | 13 => 0x800000000000008b
  | 14 => 0x8000000000008089
  | 15 => 0x8000000000008003
  | 16 => 0x8000000000008002
  | 17 => 0x8000000000000080
  | 18 => 0x800a
  | 19 => 0x800000008000000a
  | 20 => 0x8000000080008081
  | 21 => 0x8000000000008080
  | 22 => 0x80000001
  | _ => 0x8000000080008008

/-- One round of Keccak-f[1600]: θ, ρ, π, χ, then ι on lane `(0, 0)`. -/
def keccakRound (rc : Nat) (s : List Nat) : List Nat :=
  match keccakChi (keccakRhoPi (keccakTheta s)) with
  | [] => []
  | a :: rest => (a ^^^ rc) :: rest

/-- The full 24-round Keccak-f[1600] permutation. -/
def keccakF (s : List Nat) : List Nat :=
  (List.range 24).foldl (fun st i => keccakRound (keccakRoundConstant i) st) s

/-- Fuel-driven worker for `chunksOf`; fuel of at least the list length
suffices since every step consumes at least one element. -/
def chunksOfAux (km1 : Nat) : Nat → List Nat → List (List Nat)
  | _, [] => []
  | 0, _ :: _ => []
  | fuel + 1, x :: xs =>
    (x :: xs).take (km1 + 1) :: chunksOfAux km1 fuel ((x :: xs).drop (km1 + 1))

/-- Split a byte string into chunks of `km1 + 1` bytes (the last possibly
shorter). -/
def chunksOf (km1 : Nat) (l : List Nat) : List (List Nat) :=
  chunksOfAux km1 l.length l

/-- A little-endian 8-byte group as a 64-bit lane. -/
def bytesToLane (bytes : List Nat) : Nat :=
  bytes.foldr (fun b acc => acc * 256 + b) 0

/-- A 64-bit lane as 8 little-endian bytes. -/
def laneToBytes (n : Nat) : List Nat :=
  (List.range 8).map fun i => n >>> (8 * i) % 256

/-- Absorb one 136-byte rate block into the state and permute. -/
def keccakAbsorbBlock (s : List Nat) (block : List Nat) : List Nat :=
  let lanes := (chunksOf 7 block).map bytesToLane ++ List.replicate 8 0
  keccakF (List.zipWith (fun a b => a ^^^ b) s lanes)

/-- Keccak-256 of a byte string: multi-rate padding with domain byte `0x01`
(the original Keccak as used by Ethereum, rate 136), absorb, and squeeze the
first 32 bytes. -/
def keccak256 (msg : List Nat) : List Nat :=
  let padLen := 136 - msg.length % 136
  let padded :=
    msg ++ (if padLen = 1 then [0x81] else 0x01 :: (List.replicate (padLen - 2) 0 ++ [0x80]))
  let state := (chunksOf 135 padded).foldl keccakAbsorbBlock (List.replicate 25 0)
  concatMap laneToBytes (state.take 4)

/-! ## The identity hash of eip2930.rs -/

/-- Modelled from the spec: `envelop_bytes` (edr_eth utils.rs is not under
src/) — prefix the canonical encoding with the one-byte transaction type tag. -/
def envelopBytes (tag : Nat) (bytes : List Nat) : List Nat :=
  tag :: bytes

/-- The digest that `Eip2930SignedTransaction::hash` computes on first access:
`keccak256(envelop_bytes(1, alloy_rlp::encode(self)))`. -/
def txHashBytes (tx : Eip2930SignedTransaction) : List Nat :=
  keccak256 (envelopBytes 1 (encodeTx tx))

/-- The `hash()` method of eip2930.rs, i.e. `self.hash.get_or_init(...)`:
returns the cached digest if present, otherwise computes it, stores it and
returns it. The returned transaction is the instance after the call (the
`OnceLock` cell possibly newly populated). -/
def hashGet (tx : Eip2930SignedTransaction) : List Nat × Eip2930SignedTransaction :=
  match tx.hash with
  | some h => (h, tx)
  | none => (txHashBytes tx, { tx with hash := some (txHashBytes tx) })

/-! ## JSON-RPC method invocations (edr_provider)

The `MethodInvocation` serde implementation is not under src/; the definitions
in this section are modelled from the spec (positional parameters, trailing
optional defaulting, method-name aliasing), with the concrete per-method
defaults pinned by the assertions of
src/crates/edr_provider/tests/eth_request_serialization.rs. -/

/-- Modelled from the spec: a block reference parameter (`BlockSpec`,
edr_eth remote, not under src/) — a tag or a block number. -/
inductive BlockSpec where
  | latest
  | earliest
  | pending
  | safe
  | finalized
  | number (n : Nat)
deriving DecidableEq

/-- Modelled from the spec: the call-request parameter object (`CallRequest`,
edr_eth remote, not under src/), with the fields the serialization tests
populate. -/
structure CallRequest where
  sender : Option Nat
  toAddr : Option Nat
  gas : Option Nat
  gas_price : Option Nat
  max_fee_per_gas : Option Nat
  max_priority_fee_per_gas : Option Nat
  value : Option Nat
  data : Option (List Nat)
  access_list : Option (List AccessListItem)
  transaction_type : Option Nat
deriving DecidableEq

/-- Modelled from the spec: the variants of the closed `MethodInvocation`
union that the claims concern, carrying their positional parameters. -/
inductive MethodInvocation where
  | getBalance (address : Nat) (block : Option BlockSpec)
  | getCode (address : Nat) (block : Option BlockSpec)
  | getTransactionCount (address : Nat) (block : Option BlockSpec)
  | callMethod (tx : CallRequest) (block : Option BlockSpec) (overrides : Option Unit)
  | estimateGas (tx : CallRequest) (block : Option BlockSpec)
  | sign (message : List Nat) (address : Nat)
deriving DecidableEq

/-- One positional parameter on the JSON-RPC wire. -/
inductive ParamValue where
  | address (a : Nat)
  | block (b : BlockSpec)
  | callReq (c : CallRequest)
  | bytes (b : List Nat)
  | overrides
  | null
deriving DecidableEq

/-- The canonical JSON-RPC method name of an invocation. -/
def methodName : MethodInvocation → String
  | .getBalance .. => "eth_getBalance"
  | .getCode .. => "eth_getCode"
  | .getTransactionCount .. => "eth_getTransactionCount"
  | .callMethod .. => "eth_call"
  | .estimateGas .. => "eth_estimateGas"
  | .sign .. => "eth_sign"

/-- Serialization of the positional params array; a trailing `none` optional
parameter is omitted from the array. -/
def serializeParams : MethodInvocation → List ParamValue
  | .getBalance a (some b) => [.address a, .block b]
  | .getBalance a none => [.address a]
  | .getCode a (some b) => [.address a, .block b]
  | .getCode a none => [.address a]
  | .getTransactionCount a (some b) => [.address a, .block b]
  | .getTransactionCount a none => [.address a]
  | .callMethod tx (some b) (some _) => [.callReq tx, .block b, .overrides]
  | .callMethod tx (some b) none => [.callReq tx, .block b]
  | .callMethod tx none (some _) => [.callReq tx, .null, .overrides]
  | .callMethod tx none none => [.callReq tx]
  | .estimateGas tx (some b) => [.callReq tx, .block b]
  | .estimateGas tx none => [.callReq tx]
  | .sign m a => [.bytes m, .address a]

/-- Serialization of a method invocation: the method name and the params
array. -/
def serializeInvocation (inv : MethodInvocation) : String × List ParamValue :=
  (methodName inv, serializeParams inv)

/-- Deserialization of a method invocation from a method name and a params
array. An omitted trailing block parameter is filled with its documented
default before construction: `"latest"` for the balance, code,
transaction-count and call queries, `"pending"` for the estimate-gas query
(as asserted by `test_serde_eth_estimate_gas`); `personal_sign` is a
documented alias of `eth_sign`. Unknown names or malformed params yield
`none`. -/
def deserializeInvocation (method : String) (params : List ParamValue) :
    Option MethodInvocation :=
  if method = "eth_getBalance" then
    match params with
    | [.address a] => some (.getBalance a (some .latest))
    | [.address a, .block b] => some (.getBalance a (some b))
    | _ => none
  else if method = "eth_getCode" then
    match params with
    | [.address a] => some (.getCode a (some .latest))
    | [.address a, .block b] => some (.getCode a (some b))
    | _ => none
  else if method = "eth_getTransactionCount" then
    match params with
    | [.address a] => some (.getTransactionCount a (some .latest))
    | [.address a, .block b] => some (.getTransactionCount a (some b))
    | _ => none
  else if method = "eth_call" then
    match params with
    | [.callReq tx] => some (.callMethod tx (some .latest) none)
    | [.callReq tx, .block b] => some (.callMethod tx (some b) none)
    | [.callReq tx, .block b, .overrides] => some (.callMethod tx (some b) (some ()))
    | _ => none
  else if method = "eth_estimateGas" then
    match params with
    | [.callReq tx] => some (.estimateGas tx (some .pending))
    | [.callReq tx, .block b] => some (.estimateGas tx (some b))
    | _ => none
  else if method = "eth_sign" ∨ method = "personal_sign" then
    match params with
    | [.bytes m, .address a] => some (.sign m a)
    | _ => none
  else none

/-! ## The dispatcher (`Provider::handle_request`, provider.rs)

Execution traces are opaque to the dispatcher; they are modelled as naturals,
with `0` as the `Default` value that `std::mem::take` leaves behind. The
external collaborators (request parser, request classifier, failed-request
logger, execution engine, JSON serializers) live outside src/ and are passed
in as explicit functions; `spawn_blocking` joins are modelled as an outer
`Except` layer whose error is the join failure. -/

/-- An execution trace handle (`edr_evm::trace::Trace`, opaque here). -/
abbrev Trace := Nat

/-- The reasons of a transaction failure; only the out-of-gas distinction is
observable in provider.rs, the remaining reason variants are collapsed into
`other`. -/
inductive TransactionFailureReason where
  | outOfGas (gasLimit : Nat)
  | other (description : String)
deriving DecidableEq

/-- The failure payload carried by a `TransactionFailed` provider error:
a reason and the single top-level solidity trace. -/
structure TransactionFailure where
  reason : TransactionFailureReason
  solidity_trace : Trace
deriving DecidableEq

/-- The `TransactionFailed` payload as used by provider.rs: the failure itself
plus the sequence of sub-call traces. -/
structure TransactionFailureWithTraces where
  failure : TransactionFailure
  traces : List Trace
deriving DecidableEq

/-- The engine's domain error: the distinguished `TransactionFailed` kind, or
any other domain error (collapsed, carrying no traces). -/
inductive ProviderError where
  | transactionFailed (failure : TransactionFailureWithTraces)
  | other (message : String)
deriving DecidableEq

/-- A successful engine response: an opaque result payload plus the sequence
of sub-call traces. -/
structure ExecutionResponse where
  result : String
  traces : List Trace
deriving DecidableEq

/-- The `Response` struct of provider.rs: JSON-RPC response text, the optional
top-level solidity trace of a failed call, and zero or more sub-call traces. -/
structure Response where
  json : String
  solidity_trace : Option Trace
  traces : List Trace
deriving DecidableEq

/-- A `napi::Error` with its status. -/
inductive NapiError where
  | genericFailure (message : String)
  | invalidArg (message : String)
deriving DecidableEq

/-- The JSON-RPC error object assembled on the deserialization-failure path. -/
structure JsonRpcErrorBody where
  code : Int
  message : String
  data : Option String
deriving DecidableEq

/-- Modelled from the spec: the output of the `InvalidRequestReason`
classifier (edr_provider, not under src/) — an error code, a message, and
optionally a (method name, structured provider error) pair used only for
diagnostic logging; the structured error is opaque here. -/
structure RequestClassification where
  errorCode : Int
  errorMessage : String
  providerError : Option (String × String)

/-- The external collaborators of `Provider::handle_request`. `log` combines
the `spawn_blocking` join (outer `Except`, propagated with `?`) with the
logger's own result (inner `Except`, which the dispatcher ignores);
`engineCall` likewise wraps the engine's domain result in the join layer. -/
structure DispatchEnv where
  parse : String → Except String MethodInvocation
  classify : String → String → RequestClassification
  log : String → String → Except String (Except String Unit)
  parseData : String → Option String
  engineCall : MethodInvocation → Except String (Except ProviderError ExecutionResponse)
  serializeError : JsonRpcErrorBody → Except String String
  serializeResult : Except ProviderError String → Except String String

/-- Does a failure reason match `TransactionFailureReason::OutOfGas(_)`? -/
def isOutOfGas : TransactionFailureReason → Bool
  | .outOfGas _ => true
  | .other _ => false

/-- The top-level solidity trace extracted by provider.rs: present exactly
when the engine failed with `TransactionFailed` for a reason other than out of
gas, in which case it is the failure payload's trace. -/
def extractSolidityTrace :
    Except ProviderError ExecutionResponse → Option Trace
  | .error (.transactionFailed f) =>
    if isOutOfGas f.failure.reason then none else some f.failure.solidity_trace
  | _ => none

/-- The engine result after `std::mem::take(&mut failure.failure.solidity_trace)`:
the taken trace is replaced by the `Default` trace. -/
def takeSolidityTrace :
    Except ProviderError ExecutionResponse → Except ProviderError ExecutionResponse
  | .error (.transactionFailed f) =>
    if isOutOfGas f.failure.reason then .error (.transactionFailed f)
    else .error (.transactionFailed
      { f with failure := { f.failure with solidity_trace := 0 } })
  | r => r

/-- The sub-call traces extracted by provider.rs: taken from the success
response, taken from the `TransactionFailed` payload, and empty for every
other failure kind. -/
def extractTraces : Except ProviderError ExecutionResponse → List Trace
  | .ok r => r.traces
  | .error (.transactionFailed f) => f.traces
  | .error (.other _) => []

/-- The engine result after `std::mem::take` of the trace sequences. -/
def takeTraces :
    Except ProviderError ExecutionResponse → Except ProviderError ExecutionResponse
  | .ok r => .ok { r with traces := [] }
  | .error (.transactionFailed f) => .error (.transactionFailed { f with traces := [] })
  | .error (.other m) => .error (.other m)

/-- `Provider::handle_request` (provider.rs, lines 63-151). On a
deserialization failure: classify, emit the best-effort diagnostic log when
the classifier yields a method context (ignoring the logger's own result but
propagating a join failure), and return the classified error response with no
traces. On a successful parse: call the engine off-thread, extract the
top-level solidity trace and the sub-call traces by taking them out of the
result, serialize the remaining response data, and assemble the `Response`. -/
def handleRequest (env : DispatchEnv) (jsonRequest : String) : Except NapiError Response :=
  match env.parse jsonRequest with
  | .error message =>
    let reason := env.classify jsonRequest message
    let logStep : Except NapiError Unit :=
      match reason.providerError with
      | some (methodNameArg, providerErrorArg) =>
        match env.log methodNameArg providerErrorArg with
        | .error joinError => .error (.genericFailure joinError)
        | .ok _ignoredLoggerResult => .ok ()
      | none => .ok ()
    match logStep with
    | .error e => .error e
    | .ok () =>
      let body : JsonRpcErrorBody :=
        { code := reason.errorCode, message := reason.errorMessage,
          data := env.parseData jsonRequest }
      match env.serializeError body with
      | .error serdeError =>
        .error (.invalidArg
          ("Invalid JSON `" ++ jsonRequest ++ "` due to: " ++ serdeError))
      | .ok jsonResponse =>
        .ok { json := jsonResponse, solidity_trace := none, traces := [] }
  | .ok request =>
    match env.engineCall request with
    | .error joinError => .error (.genericFailure joinError)
    | .ok engineResult =>
      let solidityTrace := extractSolidityTrace engineResult
      let traces := extractTraces engineResult
      let afterTake := takeTraces (takeSolidityTrace engineResult)
      match env.serializeResult (afterTake.map (fun r => r.result)) with
      | .error e => .error (.genericFailure e)
      | .ok json =>
        .ok { json := json, solidity_trace := solidityTrace, traces := traces }

/-! ## Conformance fixtures (the `#[cfg(test)]` module of eip2930.rs) -/

/-- Modelled from the spec: the signing operation
(`Eip2930TransactionRequest::sign`, not under src/) pairs the unsigned request
with a private key and yields the envelope whose protocol fields are the
request's fields plus the signature triple. This is the envelope produced by
signing `dummy_request()` (chain id 1, nonce 1, gas price 2, gas limit 3, call
to `0xc014ba5e…c014ba5e`, value 4, input `0x1234`, one access-list entry with
storage keys 0 and 1) with the fixed test key; the parity and the `r`/`s`
scalars are the components the conformance vectors pin. -/
def signedDummyRequest : Eip2930SignedTransaction :=
  { chain_id := 1, nonce := 1, gas_price := 2, gas_limit := 3,
    kind := .call 0xc014ba5ec014ba5ec014ba5ec014ba5ec014ba5e,
    value := 4, input := [0x12, 0x34],
    access_list := [{ address := 0, storage_keys := [0, 1] }],
    odd_y_parity := true,
    r := 0xa9f9f0c845cc2d257838df2679a59af6f19055012ce1de11ba25b4ca9df503cf,
    s := 0x2c70c54cf6c49b4a641b269c93308fa07de541aa3bcd3fce0fc722aaabe3a8d8,
    hash := none }

/-- The expected canonical encoding of `test_eip2930_signed_transaction_encoding`
(generated by Hardhat). -/
def expectedSignedEncoding : List Nat :=
  [0xf8, 0xbd, 0x01, 0x01, 0x02, 0x03, 0x94, 0xc0, 0x14, 0xba, 0x5e, 0xc0,
   0x14, 0xba, 0x5e, 0xc0, 0x14, 0xba, 0x5e, 0xc0, 0x14, 0xba, 0x5e, 0xc0,
   0x14, 0xba, 0x5e, 0x04, 0x82, 0x12, 0x34, 0xf8, 0x5b, 0xf8, 0x59, 0x94,
   0x00, 0x00, 0x00, 0x00, 0x00, 0x00, 0x00, 0x00, 0x00, 0x00, 0x00, 0x00,
   0x00, 0x00, 0x00, 0x00, 0x00, 0x00, 0x00, 0x00, 0xf8, 0x42, 0xa0, 0x00,
   0x00, 0x00, 0x00, 0x00, 0x00, 0x00, 0x00, 0x00, 0x00, 0x00, 0x00, 0x00,
   0x00, 0x00, 0x00, 0x00, 0x00, 0x00, 0x00, 0x00, 0x00, 0x00, 0x00, 0x00,
   0x00, 0x00, 0x00, 0x00, 0x00, 0x00, 0x00, 0xa0, 0x00, 0x00, 0x00, 0x00,
   0x00, 0x00, 0x00, 0x00, 0x00, 0x00, 0x00, 0x00, 0x00, 0x00, 0x00, 0x00,
   0x00, 0x00, 0x00, 0x00, 0x00, 0x00, 0x00, 0x00, 0x00, 0x00, 0x00, 0x00,
   0x00, 0x00, 0x00, 0x01, 0x01, 0xa0, 0xa9, 0xf9, 0xf0, 0xc8, 0x45, 0xcc,
   0x2d, 0x25, 0x78, 0x38, 0xdf, 0x26, 0x79, 0xa5, 0x9a, 0xf6, 0xf1, 0x90,
   0x55, 0x01, 0x2c, 0xe1, 0xde, 0x11, 0xba, 0x25, 0xb4, 0xca, 0x9d, 0xf5,
   0x03, 0xcf, 0xa0, 0x2c, 0x70, 0xc5, 0x4c, 0xf6, 0xc4, 0x9b, 0x4a, 0x64,
   0x1b, 0x26, 0x9c, 0x93, 0x30, 0x8f, 0xa0, 0x7d, 0xe5, 0x41, 0xaa, 0x3b,
   0xcd, 0x3f, 0xce, 0x0f, 0xc7, 0x22, 0xaa, 0xab, 0xe3, 0xa8, 0xd8]

/-- The expected transaction hash of `test_eip2930_signed_transaction_hash`
(generated by Hardhat). -/
def expectedSignedHash : List Nat :=
  [0x1d, 0x4f, 0x5e, 0xf5, 0xc7, 0xb4, 0xb0, 0xbd, 0x61, 0xd4, 0xdd, 0x62,
   0x26, 0x15, 0xec, 0x28, 0x0a, 0xe5, 0xb9, 0xa5, 0x71, 0x36, 0xce, 0x6b,
   0x76, 0x86, 0x02, 0x59, 0x99, 0x22, 0x06, 0x11]

/-! ## Witness fixtures -/

/-- The call-request value used by the serialization tests (from 1, to 2,
gas 3, gas price 4, value 123568919, data `b"whatever"`). -/
def sampleCallRequest : CallRequest :=
  { sender := some 1, toAddr := some 2, gas := some 3, gas_price := some 4,
    max_fee_per_gas := none, max_priority_fee_per_gas := none,
    value := some 123568919,
    data := some [0x77, 0x68, 0x61, 0x74, 0x65, 0x76, 0x65, 0x72],
    access_list := none, transaction_type := none }

/-- A dispatch environment whose parser accepts every request and whose engine
always yields `result`; the other collaborators are inert. -/
def sampleEngineEnv (result : Except ProviderError ExecutionResponse) : DispatchEnv :=
  { parse := fun _ => .ok (.getBalance 1 (some .latest)),
    classify := fun _ _ =>
      { errorCode := -32600, errorMessage := "Invalid request", providerError := none },
    log := fun _ _ => .ok (.ok ()),
    parseData := fun _ => none,
    engineCall := fun _ => .ok result,
    serializeError := fun _ => .ok "errorResponse",
    serializeResult := fun _ => .ok "resultResponse" }

/-- A dispatch environment whose parser rejects every request, whose
classifier attributes the failure to a recognized method, and whose logger
call joins successfully but itself fails. -/
def sampleRejectingEnv : DispatchEnv :=
  { parse := fun _ => .error "data did not match any variant",
    classify := fun _ _ =>
      { errorCode := -32602, errorMessage := "Invalid params",
        providerError := some ("eth_getBalance", "invalid block spec") },
    log := fun _ _ => .ok (.error "logger failed"),
    parseData := fun _ => some "rawRequest",
    engineCall := fun _ => .ok (.error (.other "unreachable")),
    serializeError := fun _ => .ok "errorResponse",
    serializeResult := fun _ => .ok "resultResponse" }

/-- An engine failure of the distinguished `TransactionFailed` kind whose
reason is not out of gas. -/
def sampleRevertFailure : TransactionFailureWithTraces :=
  { failure := { reason := .other "revert", solidity_trace := 7 }, traces := [3, 4] }

/-- An engine failure of the distinguished `TransactionFailed` kind whose
reason is out of gas. -/
def sampleOutOfGasFailure : TransactionFailureWithTraces :=
  { failure := { reason := .outOfGas 21000, solidity_trace := 7 }, traces := [3, 4] }

/-! # Theorems

## Big-endian byte-string arithmetic -/

theorem natToBeBytesAux_irrel (n : Nat) :
    ∀ f1 f2, n ≤ f1 → n ≤ f2 → natToBeBytesAux f1 n = natToBeBytesAux f2 n := by
  induction n using Nat.strong_induction_on with
  | _ n ih =>
    intro f1 f2 h1 h2
    cases n with
    | zero => cases f1 <;> cases f2 <;> rfl
    | succ m =>
      cases f1 with
      | zero => omega
      | succ g1 =>
        cases f2 with
        | zero => omega
        | succ g2 =>
          show natToBeBytesAux g1 ((m + 1) / 256) ++ [(m + 1) % 256]
              = natToBeBytesAux g2 ((m + 1) / 256) ++ [(m + 1) % 256]
          have hd : (m + 1) / 256 < m + 1 := Nat.div_lt_self (Nat.succ_pos m) (by omega)
          rw [ih ((m + 1) / 256) hd g1 g2 (by omega) (by omega)]

theorem natToBeBytes_zero : natToBeBytes 0 = [] := rfl

theorem natToBeBytes_succ (n : Nat) (h : 0 < n) :
    natToBeBytes n = natToBeBytes (n / 256) ++ [n % 256] := by
  cases n with
  | zero => omega
  | succ m =>
    have hq : (m + 1) / 256 ≤ m := by
      have := Nat.div_lt_self (Nat.succ_pos m) (show 1 < 256 by omega)
      omega
    show natToBeBytesAux m ((m + 1) / 256) ++ [(m + 1) % 256] = _
    rw [natToBeBytesAux_irrel ((m + 1) / 256) m ((m + 1) / 256) hq (Nat.le_refl _)]
    rfl

theorem beBytesToNat_snoc (l : List Nat) (b : Nat) :
    beBytesToNat (l ++ [b]) = beBytesToNat l * 256 + b := by
  simp [beBytesToNat, List.foldl_append]

theorem beBytesToNat_natToBeBytes (n : Nat) : beBytesToNat (natToBeBytes n) = n := by
  induction n using Nat.strong_induction_on with
  | _ n ih =>
    rcases Nat.eq_zero_or_pos n with h0 | hpos
    · subst h0; rfl
    · rw [natToBeBytes_succ n hpos, beBytesToNat_snoc,
        ih (n / 256) (Nat.div_lt_self hpos (by omega))]
      omega

theorem natToBeBytes_ne_nil (n : Nat) (h : 0 < n) : natToBeBytes n ≠ [] := by
  rw [natToBeBytes_succ n h]
  simp

theorem natToBeBytes_headI_pos : ∀ n, 0 < n → 0 < (natToBeBytes n).headI := by
  intro n
  induction n using Nat.strong_induction_on with
  | _ n ih =>
    intro h
    rw [natToBeBytes_succ n h]
    rcases Nat.eq_zero_or_pos (n / 256) with h0 | hpos
    · rw [h0, natToBeBytes_zero]
      simp only [List.nil_append, List.headI]
      omega
    · have hne := natToBeBytes_ne_nil _ hpos
      rcases List.exists_cons_of_ne_nil hne with ⟨a, t, heq⟩
      rw [heq, List.cons_append]
      simp only [List.headI]
      have := ih (n / 256) (Nat.div_lt_self h (by omega)) hpos
      rw [heq] at this
      simpa using this

theorem natToBeBytes_length_le (k : Nat) :
    ∀ n, n < 256 ^ k → (natToBeBytes n).length ≤ k := by
  induction k with
  | zero =>
    intro n h
    have : n = 0 := by simpa using h
    subst this
    simp [natToBeBytes_zero]
  | succ k ih =>
    intro n h
    rcases Nat.eq_zero_or_pos n with h0 | hpos
    · subst h0; simp [natToBeBytes_zero]
    · rw [natToBeBytes_succ n hpos]
      simp only [List.length_append, List.length_singleton]
      have hlt : n / 256 < 256 ^ k := by
        rw [Nat.div_lt_iff_lt_mul (show 0 < 256 by omega)]
        calc n < 256 ^ (k + 1) := h
          _ = 256 ^ k * 256 := by ring
      have := ih (n / 256) hlt
      omega

theorem natToBeBytes_length_pos (n : Nat) (h : 0 < n) :
    0 < (natToBeBytes n).length := by
  have := natToBeBytes_ne_nil n h
  cases heq : natToBeBytes n with
  | nil => exact absurd heq this
  | cons a t => simp

theorem natToFixedBytes_length (k n : Nat) (h : (natToBeBytes n).length ≤ k) :
    (natToFixedBytes k n).length = k := by
  simp only [natToFixedBytes, List.length_append, List.length_replicate]
  omega

theorem beBytesToNat_cons_zero (l : List Nat) :
    beBytesToNat (0 :: l) = beBytesToNat l := by
  simp [beBytesToNat]

theorem beBytesToNat_replicate_zero (m : Nat) (l : List Nat) :
    beBytesToNat (List.replicate m 0 ++ l) = beBytesToNat l := by
  induction m with
  | zero => simp
  | succ m ih =>
    rw [List.replicate_succ, List.cons_append, beBytesToNat_cons_zero, ih]

theorem beBytesToNat_natToFixedBytes (k n : Nat) :
    beBytesToNat (natToFixedBytes k n) = n := by
  rw [natToFixedBytes, beBytesToNat_replicate_zero, beBytesToNat_natToBeBytes]

/-! ## RLP byte-string round trips -/

theorem rlpEncodeBytes_one_lt (x : Nat) (h : x < 0x80) : rlpEncodeBytes [x] = [x] := by
  simp [rlpEncodeBytes, h]

theorem rlpEncodeBytes_one_ge (x : Nat) (h : ¬x < 0x80) :
    rlpEncodeBytes [x] = [0x81, x] := by
  simp [rlpEncodeBytes, h]

theorem rlpEncodeBytes_multi_short (x y : Nat) (t : List Nat)
    (h : (x :: y :: t).length ≤ 55) :
    rlpEncodeBytes (x :: y :: t) = (0x80 + (x :: y :: t).length) :: (x :: y :: t) := by
  simp only [rlpEncodeBytes]
  rw [if_pos h]

theorem rlpEncodeBytes_multi_long (x y : Nat) (t : List Nat)
    (h : ¬(x :: y :: t).length ≤ 55) :
    rlpEncodeBytes (x :: y :: t) =
      (0xb7 + (natToBeBytes (x :: y :: t).length).length) ::
        (natToBeBytes (x :: y :: t).length ++ (x :: y :: t)) := by
  simp only [rlpEncodeBytes]
  rw [if_neg h]

theorem rlpDecodeBytes_header (L : Nat) (payload rest : List Nat)
    (hL : payload.length = L) (h55 : L ≤ 55)
    (hcanon : ¬(L = 1 ∧ payload.headI < 0x80)) :
    rlpDecodeBytes ((0x80 + L) :: (payload ++ rest)) = some (payload, rest) := by
  subst hL
  have hA : ¬(0x80 + payload.length < 0x80) := by omega
  have hB : 0x80 + payload.length ≤ 0xb7 := by omega
  have hC : ¬((payload ++ rest).length < payload.length) := by
    rw [List.length_append]; omega
  simp only [rlpDecodeBytes, hA, if_false, hB, if_true, Nat.add_sub_cancel_left,
    hC, List.take_left, List.drop_left, if_neg hcanon]

theorem rlpDecodeBytes_headerLong (payload rest : List Nat)
    (h55 : 55 < payload.length) (hmax : payload.length < 256 ^ 8) :
    rlpDecodeBytes ((0xb7 + (natToBeBytes payload.length).length) ::
        (natToBeBytes payload.length ++ (payload ++ rest))) = some (payload, rest) := by
  have hll1 : 0 < (natToBeBytes payload.length).length :=
    natToBeBytes_length_pos _ (by omega)
  have hll8 : (natToBeBytes payload.length).length ≤ 8 :=
    natToBeBytes_length_le 8 _ hmax
  have hA : ¬(0xb7 + (natToBeBytes payload.length).length < 0x80) := by omega
  have hB : ¬(0xb7 + (natToBeBytes payload.length).length ≤ 0xb7) := by omega
  have hBf : 0xb7 + (natToBeBytes payload.length).length ≤ 0xbf := by omega
  have hC : ¬((natToBeBytes payload.length ++ (payload ++ rest)).length <
      (natToBeBytes payload.length).length) := by
    rw [List.length_append]; omega
  have hH : ¬((natToBeBytes payload.length).headI = 0) := by
    have := natToBeBytes_headI_pos payload.length (by omega)
    omega
  have hD : ¬((payload ++ rest).length < payload.length) := by
    rw [List.length_append]; omega
  have h55n : ¬(payload.length ≤ 55) := by omega
  simp only [rlpDecodeBytes, hA, if_false, hB, hBf, if_true, Nat.add_sub_cancel_left,
    hC, List.take_left, List.drop_left, hH, beBytesToNat_natToBeBytes, h55n, hD]

theorem rlpDecodeBytes_encode (b rest : List Nat) (hb : b.length < 256 ^ 8) :
    rlpDecodeBytes (rlpEncodeBytes b ++ rest) = some (b, rest) := by
  match b with
  | [] =>
    exact rlpDecodeBytes_header 0 [] rest rfl (by omega) (by simp)
  | [x] =>
    by_cases hx : x < 0x80
    · rw [rlpEncodeBytes_one_lt x hx]
      simp [rlpDecodeBytes, hx]
    · rw [rlpEncodeBytes_one_ge x hx]
      show rlpDecodeBytes ((0x80 + 1) :: ([x] ++ rest)) = some ([x], rest)
      exact rlpDecodeBytes_header 1 [x] rest rfl (by omega) (by simp [hx])
  | x :: y :: t =>
    by_cases hlen : (x :: y :: t).length ≤ 55
    · rw [rlpEncodeBytes_multi_short x y t hlen, List.cons_append]
      exact rlpDecodeBytes_header (x :: y :: t).length (x :: y :: t) rest rfl hlen
        (by simp)
    · rw [rlpEncodeBytes_multi_long x y t hlen, List.cons_append, List.append_assoc]
      exact rlpDecodeBytes_headerLong (x :: y :: t) rest (by omega) hb

theorem rlpDecodeListHeader_short (L : Nat) (payload rest : List Nat)
    (hL : payload.length = L) (h55 : L ≤ 55) :
    rlpDecodeListHeader ((0xc0 + L) :: (payload ++ rest)) = some (L, payload ++ rest) := by
  subst hL
  have hA : ¬(0xc0 + payload.length < 0xc0) := by omega
  have hB : 0xc0 + payload.length ≤ 0xf7 := by omega
  have hC : ¬((payload ++ rest).length < payload.length) := by
    rw [List.length_append]; omega
  simp [rlpDecodeListHeader, hA, hB, hC, Nat.add_sub_cancel_left]

theorem rlpDecodeListHeader_long (payload rest : List Nat)
    (h55 : 55 < payload.length) (hmax : payload.length < 256 ^ 8) :
    rlpDecodeListHeader ((0xf7 + (natToBeBytes payload.length).length) ::
        (natToBeBytes payload.length ++ (payload ++ rest))) =
      some (payload.length, payload ++ rest) := by
  have hll1 : 0 < (natToBeBytes payload.length).length :=
    natToBeBytes_length_pos _ (by omega)
  have hll8 : (natToBeBytes payload.length).length ≤ 8 :=
    natToBeBytes_length_le 8 _ hmax
  have hA : ¬(0xf7 + (natToBeBytes payload.length).length < 0xc0) := by omega
  have hB : ¬(0xf7 + (natToBeBytes payload.length).length ≤ 0xf7) := by omega
  have hC : ¬((natToBeBytes payload.length ++ (payload ++ rest)).length <
      (natToBeBytes payload.length).length) := by
    rw [List.length_append]; omega
  have hH : ¬((natToBeBytes payload.length).headI = 0) := by
    have := natToBeBytes_headI_pos payload.length (by omega)
    omega
  have hD : ¬((payload ++ rest).length < payload.length) := by
    rw [List.length_append]; omega
  have h55n : ¬(payload.length ≤ 55) := by omega
  simp [rlpDecodeListHeader, hA, hB, hC, hH, hD, h55n, Nat.add_sub_cancel_left,
    beBytesToNat_natToBeBytes, List.take_left, List.drop_left]

theorem rlpEncodeList_short (p : List Nat) (h : p.length ≤ 55) :
    rlpEncodeList p = (0xc0 + p.length) :: p := by
  simp [rlpEncodeList, h]

theorem rlpEncodeList_long (p : List Nat) (h : ¬p.length ≤ 55) :
    rlpEncodeList p =
      (0xf7 + (natToBeBytes p.length).length) :: (natToBeBytes p.length ++ p) := by
  simp [rlpEncodeList, h]

theorem rlpDecodeListHeader_encode (p rest : List Nat) (hp : p.length < 256 ^ 8) :
    rlpDecodeListHeader (rlpEncodeList p ++ rest) = some (p.length, p ++ rest) := by
  by_cases h : p.length ≤ 55
  · rw [rlpEncodeList_short p h, List.cons_append]
    exact rlpDecodeListHeader_short p.length p rest rfl h
  · rw [rlpEncodeList_long p h, List.cons_append, List.append_assoc]
    exact rlpDecodeListHeader_long p rest (by omega) hp

/-! ## RLP field round trips -/

theorem rlpDecodeNat_encode (k n : Nat) (rest : List Nat) (hn : n < 256 ^ k)
    (hk : k ≤ 55) :
    rlpDecodeNat k (rlpEncodeNat n ++ rest) = some (n, rest) := by
  have hlen : (natToBeBytes n).length ≤ k := natToBeBytes_length_le k n hn
  have hsm : (natToBeBytes n).length < 256 ^ 8 := by
    have : (256 : Nat) ^ 8 = 18446744073709551616 := by norm_num
    omega
  have h1 : ¬((natToBeBytes n).length > k) := by omega
  rcases Nat.eq_zero_or_pos n with h0 | hpos
  · subst h0
    simp only [rlpEncodeNat, rlpDecodeNat, natToBeBytes_zero,
      rlpDecodeBytes_encode [] rest (by norm_num)]
    simp [beBytesToNat]
  · have h2 : ¬((natToBeBytes n).headI = 0 ∧ natToBeBytes n ≠ []) := by
      have := natToBeBytes_headI_pos n hpos
      rintro ⟨ha, _⟩
      omega
    simp only [rlpEncodeNat, rlpDecodeNat,
      rlpDecodeBytes_encode (natToBeBytes n) rest hsm]
    simp [h1, h2, beBytesToNat_natToBeBytes]

theorem rlpDecodeFixed_encode (k n : Nat) (rest : List Nat) (hn : n < 256 ^ k)
    (hk : k ≤ 55) :
    rlpDecodeFixed k (rlpEncodeFixed k n ++ rest) = some (n, rest) := by
  have hlen : (natToFixedBytes k n).length = k :=
    natToFixedBytes_length k n (natToBeBytes_length_le k n hn)
  have hsm : (natToFixedBytes k n).length < 256 ^ 8 := by
    have : (256 : Nat) ^ 8 = 18446744073709551616 := by norm_num
    omega
  simp only [rlpDecodeFixed, rlpEncodeFixed,
    rlpDecodeBytes_encode (natToFixedBytes k n) rest hsm]
  simp [hlen, beBytesToNat_natToFixedBytes]

theorem rlpDecodeKind_encode (k : TransactionKind) (rest : List Nat)
    (hwf : ∀ a, k = TransactionKind.call a → a < 256 ^ 20) :
    rlpDecodeKind (rlpEncodeKind k ++ rest) = some (k, rest) := by
  cases k with
  | create =>
    simp only [rlpEncodeKind, rlpDecodeKind, natToBeBytes_zero,
      rlpDecodeBytes_encode [] rest (by norm_num)]
    simp
  | call a =>
    have ha : a < 256 ^ 20 := hwf a rfl
    have hlen : (natToFixedBytes 20 a).length = 20 :=
      natToFixedBytes_length 20 a (natToBeBytes_length_le 20 a ha)
    have hsm : (natToFixedBytes 20 a).length < 256 ^ 8 := by
      rw [hlen]; norm_num
    simp only [rlpEncodeKind, rlpDecodeKind, rlpEncodeFixed,
      rlpDecodeBytes_encode (natToFixedBytes 20 a) rest hsm]
    simp [hlen, beBytesToNat_natToFixedBytes]

theorem rlpDecodeBool_encode (b : Bool) (rest : List Nat) :
    rlpDecodeBool (rlpEncodeBool b ++ rest) = some (b, rest) := by
  cases b with
  | false =>
    have hd : rlpDecodeBytes (0x80 :: rest) = some ([], rest) :=
      rlpDecodeBytes_encode [] rest (by norm_num)
    simp only [rlpEncodeBool, rlpDecodeBool, rlpDecodeNat, Bool.false_eq_true,
      if_false, List.singleton_append, hd]
    simp [beBytesToNat]
  | true =>
    have hd : rlpDecodeBytes (0x01 :: rest) = some ([1], rest) :=
      rlpDecodeBytes_encode [1] rest (by norm_num)
    simp only [rlpEncodeBool, rlpDecodeBool, rlpDecodeNat, if_true,
      List.singleton_append, hd]
    simp [beBytesToNat]

/-! ## RLP encoding length bounds -/

theorem rlpEncodeBytes_short_of_len (l : List Nat) (h2 : 2 ≤ l.length)
    (h55 : l.length ≤ 55) :
    rlpEncodeBytes l = (0x80 + l.length) :: l := by
  match l with
  | [] => simp at h2
  | [x] => simp at h2
  | x :: y :: t => exact rlpEncodeBytes_multi_short x y t h55

theorem rlpEncodeBytes_length_le_short (l : List Nat) (h : l.length ≤ 55) :
    (rlpEncodeBytes l).length ≤ 1 + l.length := by
  match l with
  | [] => simp [rlpEncodeBytes]
  | [x] => by_cases hx : x < 0x80 <;> simp [rlpEncodeBytes, hx]
  | x :: y :: t =>
    rw [rlpEncodeBytes_multi_short x y t h]
    simp
    omega

theorem rlpEncodeBytes_length_le (l : List Nat) (h : l.length < 256 ^ 8) :
    (rlpEncodeBytes l).length ≤ 9 + l.length := by
  match l with
  | [] => simp [rlpEncodeBytes]
  | [x] => by_cases hx : x < 0x80 <;> simp [rlpEncodeBytes, hx]
  | x :: y :: t =>
    by_cases h55 : (x :: y :: t).length ≤ 55
    · rw [rlpEncodeBytes_multi_short x y t h55]
      simp
      omega
    · rw [rlpEncodeBytes_multi_long x y t h55]
      have := natToBeBytes_length_le 8 (x :: y :: t).length h
      simp only [List.length_cons, List.length_append] at *
      omega

theorem rlpEncodeList_length_le (p : List Nat) (h : p.length < 256 ^ 8) :
    (rlpEncodeList p).length ≤ 9 + p.length := by
  by_cases h55 : p.length ≤ 55
  · rw [rlpEncodeList_short p h55]
    simp
    omega
  · rw [rlpEncodeList_long p h55]
    have := natToBeBytes_length_le 8 p.length h
    simp only [List.length_cons, List.length_append] at *
    omega

theorem rlpEncodeNat_length_le (n : Nat) (h : n < 256 ^ 32) :
    (rlpEncodeNat n).length ≤ 33 := by
  have hlen := natToBeBytes_length_le 32 n h
  have := rlpEncodeBytes_length_le_short (natToBeBytes n) (by omega)
  rw [rlpEncodeNat]
  omega

theorem rlpEncodeFixed_length (k n : Nat) (hn : n < 256 ^ k) (h2 : 2 ≤ k)
    (h55 : k ≤ 55) :
    (rlpEncodeFixed k n).length = 1 + k := by
  have hlen : (natToFixedBytes k n).length = k :=
    natToFixedBytes_length k n (natToBeBytes_length_le k n hn)
  rw [rlpEncodeFixed, rlpEncodeBytes_short_of_len _ (by omega) (by omega), hlen]
  simp [hlen]
  omega

theorem rlpEncodeKind_length_le (k : TransactionKind)
    (hwf : ∀ a, k = TransactionKind.call a → a < 256 ^ 20) :
    (rlpEncodeKind k).length ≤ 21 := by
  cases k with
  | create => simp [rlpEncodeKind, natToBeBytes_zero, rlpEncodeBytes]
  | call a =>
    rw [rlpEncodeKind, rlpEncodeFixed_length 20 a (hwf a rfl) (by omega) (by omega)]

theorem rlpEncodeBool_length_le (b : Bool) : (rlpEncodeBool b).length ≤ 1 := by
  cases b <;> simp [rlpEncodeBool]

theorem concatMap_keys_length (keys : List Nat) (h : ∀ x ∈ keys, x < 256 ^ 32) :
    (concatMap (rlpEncodeFixed 32) keys).length = 33 * keys.length := by
  induction keys with
  | nil => simp [concatMap]
  | cons k ks ih =>
    have hk : k < 256 ^ 32 := h k (by simp)
    have hlen : (rlpEncodeFixed 32 k).length = 33 :=
      rlpEncodeFixed_length 32 k hk (by omega) (by omega)
    simp only [concatMap, List.length_append, hlen,
      ih (fun x hx => h x (by simp [hx])), List.length_cons]
    ring

theorem rlpEncodeAccessItem_length_le (item : AccessListItem)
    (ha : item.address < 256 ^ 20) (hkl : item.storage_keys.length < 2 ^ 16)
    (hkeys : ∀ x ∈ item.storage_keys, x < 256 ^ 32) :
    (rlpEncodeAccessItem item).length ≤ 2 ^ 22 := by
  have p8 : (256 : Nat) ^ 8 = 18446744073709551616 := by norm_num
  have p16 : (2 : Nat) ^ 16 = 65536 := by norm_num
  have p22 : (2 : Nat) ^ 22 = 4194304 := by norm_num
  have hkp : (concatMap (rlpEncodeFixed 32) item.storage_keys).length =
      33 * item.storage_keys.length := concatMap_keys_length _ hkeys
  have hkp8 : (concatMap (rlpEncodeFixed 32) item.storage_keys).length < 256 ^ 8 := by
    omega
  have h1 := rlpEncodeList_length_le _ hkp8
  have h2 : (rlpEncodeFixed 20 item.address).length = 21 :=
    rlpEncodeFixed_length 20 _ ha (by omega) (by omega)
  have hinner : (rlpEncodeFixed 20 item.address ++
      rlpEncodeList (concatMap (rlpEncodeFixed 32) item.storage_keys)).length < 256 ^ 8 := by
    rw [List.length_append]
    omega
  have h3 := rlpEncodeList_length_le _ hinner
  rw [rlpEncodeAccessItem]
  rw [List.length_append] at h3 hinner
  omega

theorem concatMap_items_length_le (c : Nat) (items : List AccessListItem)
    (h : ∀ i ∈ items, (rlpEncodeAccessItem i).length ≤ c) :
    (concatMap rlpEncodeAccessItem items).length ≤ c * items.length := by
  induction items with
  | nil => simp [concatMap]
  | cons i is ih =>
    have h1 : (rlpEncodeAccessItem i).length ≤ c := h i (by simp)
    have h2 := ih (fun x hx => h x (by simp [hx]))
    simp only [concatMap, List.length_append, List.length_cons]
    calc (rlpEncodeAccessItem i).length + (concatMap rlpEncodeAccessItem is).length
        ≤ c + c * is.length := by omega
      _ = c * (is.length + 1) := by ring

/-! ## Access-list round trips -/

theorem rlpDecodeKeys_cons (fuel b : Nat) (rest0 : List Nat) :
    rlpDecodeKeys (fuel + 1) (b :: rest0) =
      match rlpDecodeFixed 32 (b :: rest0) with
      | none => none
      | some (n, rest) =>
        match rlpDecodeKeys fuel rest with
        | none => none
        | some ns => some (n :: ns) := rfl

theorem rlpDecodeKeys_encode (keys : List Nat) (hkeys : ∀ x ∈ keys, x < 256 ^ 32) :
    ∀ fuel, keys.length ≤ fuel →
      rlpDecodeKeys fuel (concatMap (rlpEncodeFixed 32) keys) = some keys := by
  induction keys with
  | nil =>
    intro fuel _
    cases fuel <;> rfl
  | cons k ks ih =>
    intro fuel hf
    have hk : k < 256 ^ 32 := hkeys k (by simp)
    cases fuel with
    | zero => simp at hf
    | succ f =>
      have hfl : (natToFixedBytes 32 k).length = 32 :=
        natToFixedBytes_length 32 k (natToBeBytes_length_le 32 k hk)
      have hshape : rlpEncodeFixed 32 k = (0x80 + 32) :: natToFixedBytes 32 k := by
        rw [rlpEncodeFixed, rlpEncodeBytes_short_of_len _ (by omega) (by omega), hfl]
      have hsh : concatMap (rlpEncodeFixed 32) (k :: ks)
          = (0x80 + 32) :: (natToFixedBytes 32 k ++ concatMap (rlpEncodeFixed 32) ks) := by
        show rlpEncodeFixed 32 k ++ concatMap (rlpEncodeFixed 32) ks = _
        rw [hshape, List.cons_append]
      rw [hsh, rlpDecodeKeys_cons, ← List.cons_append, ← hshape]
      simp only [rlpDecodeFixed_encode 32 k _ hk (by omega),
        ih (fun x hx => hkeys x (by simp [hx])) f (by simpa using hf)]

theorem rlpEncodeList_ne_nil (p : List Nat) : rlpEncodeList p ≠ [] := by
  by_cases h : p.length ≤ 55
  · rw [rlpEncodeList_short p h]
    simp
  · rw [rlpEncodeList_long p h]
    simp

theorem rlpDecodeAccessItem_encode (item : AccessListItem) (rest : List Nat)
    (ha : item.address < 256 ^ 20) (hkl : item.storage_keys.length < 2 ^ 16)
    (hkeys : ∀ x ∈ item.storage_keys, x < 256 ^ 32) :
    rlpDecodeAccessItem (rlpEncodeAccessItem item ++ rest) = some (item, rest) := by
  have p8 : (256 : Nat) ^ 8 = 18446744073709551616 := by norm_num
  have p16 : (2 : Nat) ^ 16 = 65536 := by norm_num
  have hkp : (concatMap (rlpEncodeFixed 32) item.storage_keys).length =
      33 * item.storage_keys.length := concatMap_keys_length _ hkeys
  have hkp8 : (concatMap (rlpEncodeFixed 32) item.storage_keys).length < 256 ^ 8 := by
    omega
  have hklist := rlpEncodeList_length_le _ hkp8
  have h2 : (rlpEncodeFixed 20 item.address).length = 21 :=
    rlpEncodeFixed_length 20 _ ha (by omega) (by omega)
  have hinner : (rlpEncodeFixed 20 item.address ++
      rlpEncodeList (concatMap (rlpEncodeFixed 32) item.storage_keys)).length < 256 ^ 8 := by
    rw [List.length_append]
    omega
  have hkeysHeader : rlpDecodeListHeader
      (rlpEncodeList (concatMap (rlpEncodeFixed 32) item.storage_keys)) =
      some ((concatMap (rlpEncodeFixed 32) item.storage_keys).length,
        concatMap (rlpEncodeFixed 32) item.storage_keys) := by
    have := rlpDecodeListHeader_encode (concatMap (rlpEncodeFixed 32) item.storage_keys)
      [] hkp8
    simpa using this
  rw [rlpEncodeAccessItem, rlpDecodeAccessItem]
  simp only [rlpDecodeListHeader_encode _ rest hinner, List.take_left, List.drop_left,
    rlpDecodeFixed_encode 20 item.address _ ha (by omega), hkeysHeader,
    List.take_length, List.drop_length, ne_eq, not_true_eq_false, if_false,
    rlpDecodeKeys_encode item.storage_keys hkeys
      (concatMap (rlpEncodeFixed 32) item.storage_keys).length (by omega)]

theorem rlpDecodeAccessItems_cons (fuel b : Nat) (rest0 : List Nat) :
    rlpDecodeAccessItems (fuel + 1) (b :: rest0) =
      match rlpDecodeAccessItem (b :: rest0) with
      | none => none
      | some (item, rest) =>
        match rlpDecodeAccessItems fuel rest with
        | none => none
        | some items => some (item :: items) := rfl

theorem rlpDecodeAccessItems_encode (items : List AccessListItem)
    (h : ∀ i ∈ items, i.address < 256 ^ 20 ∧ i.storage_keys.length < 2 ^ 16 ∧
      ∀ x ∈ i.storage_keys, x < 256 ^ 32) :
    ∀ fuel, items.length ≤ fuel →
      rlpDecodeAccessItems fuel (concatMap rlpEncodeAccessItem items) = some items := by
  induction items with
  | nil =>
    intro fuel _
    cases fuel <;> rfl
  | cons i is ih =>
    intro fuel hf
    obtain ⟨ha, hkl, hkeys⟩ := h i (by simp)
    cases fuel with
    | zero => simp at hf
    | succ f =>
      obtain ⟨c, cs, hcs⟩ :=
        List.exists_cons_of_ne_nil (rlpEncodeList_ne_nil
          (rlpEncodeFixed 20 i.address ++
            rlpEncodeList (concatMap (rlpEncodeFixed 32) i.storage_keys)))
      have hitem : rlpEncodeAccessItem i = c :: cs := by
        rw [rlpEncodeAccessItem, hcs]
      have hsh : concatMap rlpEncodeAccessItem (i :: is)
          = c :: (cs ++ concatMap rlpEncodeAccessItem is) := by
        show rlpEncodeAccessItem i ++ concatMap rlpEncodeAccessItem is = _
        rw [hitem, List.cons_append]
      rw [hsh, rlpDecodeAccessItems_cons, ← List.cons_append, ← hitem]
      simp only [rlpDecodeAccessItem_encode i _ ha hkl hkeys,
        ih (fun x hx => h x (by simp [hx])) f (by simpa using hf)]

/-! ## Whole-transaction round trip -/

theorem concatMap_length_ge (f : α → List Nat) (l : List α)
    (h : ∀ x ∈ l, f x ≠ []) : l.length ≤ (concatMap f l).length := by
  induction l with
  | nil => simp [concatMap]
  | cons x xs ih =>
    have hx : f x ≠ [] := h x (by simp)
    have h1 : 0 < (f x).length := List.length_pos.mpr hx
    have h2 := ih (fun y hy => h y (by simp [hy]))
    simp only [concatMap, List.length_append, List.length_cons]
    omega

theorem txWf_fields (tx : Eip2930SignedTransaction) (h : txWf tx = true) :
    tx.chain_id < 256 ^ 8 ∧ tx.nonce < 256 ^ 8 ∧ tx.gas_price < 256 ^ 32 ∧
      tx.gas_limit < 256 ^ 8 ∧ (∀ a, tx.kind = TransactionKind.call a → a < 256 ^ 20) ∧
      tx.value < 256 ^ 32 ∧ tx.input.length < 2 ^ 32 ∧
      tx.access_list.length < 2 ^ 16 ∧
      (∀ i ∈ tx.access_list, i.address < 256 ^ 20 ∧ i.storage_keys.length < 2 ^ 16 ∧
        ∀ x ∈ i.storage_keys, x < 256 ^ 32) ∧
      tx.r < 256 ^ 32 ∧ tx.s < 256 ^ 32 := by
  simp only [txWf, Bool.and_eq_true, decide_eq_true_eq, List.all_eq_true] at h
  obtain ⟨⟨⟨⟨⟨⟨⟨⟨⟨⟨hc, hn⟩, hgp⟩, hgl⟩, hk⟩, hv⟩, hi⟩, hal⟩, hall⟩, hr⟩, hs⟩ := h
  refine ⟨hc, hn, hgp, hgl, ?_, hv, hi, hal, ?_, hr, hs⟩
  · intro a ha
    rw [ha] at hk
    simpa using hk
  · intro i hi'
    have := hall i hi'
    simp only [Bool.and_eq_true, decide_eq_true_eq, List.all_eq_true] at this
    exact ⟨this.1.1, this.1.2, fun x hx => by simpa using this.2 x hx⟩

theorem txPayload_length_lt (tx : Eip2930SignedTransaction) (h : txWf tx = true) :
    (txPayload tx).length < 256 ^ 8 := by
  obtain ⟨hc, hn, hgp, hgl, hk, hv, hi, hal, hitems, hr, hs⟩ := txWf_fields tx h
  have P8 : (256 : Nat) ^ 8 = 18446744073709551616 := by norm_num
  have P16 : (2 : Nat) ^ 16 = 65536 := by norm_num
  have P22 : (2 : Nat) ^ 22 = 4194304 := by norm_num
  have P32 : (2 : Nat) ^ 32 = 4294967296 := by norm_num
  have e1 := rlpEncodeNat_length_le tx.chain_id (lt_of_lt_of_le hc (by norm_num))
  have e2 := rlpEncodeNat_length_le tx.nonce (lt_of_lt_of_le hn (by norm_num))
  have e3 := rlpEncodeNat_length_le tx.gas_price hgp
  have e4 := rlpEncodeNat_length_le tx.gas_limit (lt_of_lt_of_le hgl (by norm_num))
  have e5 := rlpEncodeKind_length_le tx.kind hk
  have e6 := rlpEncodeNat_length_le tx.value hv
  have e7 := rlpEncodeBytes_length_le tx.input (by omega)
  have e8a : ∀ i ∈ tx.access_list, (rlpEncodeAccessItem i).length ≤ 2 ^ 22 :=
    fun i hi' => rlpEncodeAccessItem_length_le i (hitems i hi').1 (hitems i hi').2.1
      (hitems i hi').2.2
  have e8b := concatMap_items_length_le (2 ^ 22) tx.access_list e8a
  have e8c : (concatMap rlpEncodeAccessItem tx.access_list).length < 256 ^ 8 := by
    have : (2 : Nat) ^ 22 * tx.access_list.length ≤ 2 ^ 22 * 2 ^ 16 :=
      Nat.mul_le_mul_left _ (by omega)
    omega
  have e8 := rlpEncodeList_length_le _ e8c
  have e9 := rlpEncodeBool_length_le tx.odd_y_parity
  have e10 := rlpEncodeNat_length_le tx.r hr
  have e11 := rlpEncodeNat_length_le tx.s hs
  have hmul : (2 : Nat) ^ 22 * tx.access_list.length ≤ 2 ^ 22 * 2 ^ 16 :=
    Nat.mul_le_mul_left _ (by omega)
  simp only [txPayload, rlpEncodeAccessList, List.length_append]
  omega

set_option maxHeartbeats 1600000 in
theorem decodeTx_encodeTx (tx : Eip2930SignedTransaction) (h : txWf tx = true)
    (rest : List Nat) :
    decodeTx (encodeTx tx ++ rest) = some ({ tx with hash := none }, rest) := by
  obtain ⟨hc, hn, hgp, hgl, hk, hv, hi, hal, hitems, hr, hs⟩ := txWf_fields tx h
  have hbound := txPayload_length_lt tx h
  have P8 : (256 : Nat) ^ 8 = 18446744073709551616 := by norm_num
  have f0 : ∀ r', rlpDecodeListHeader (rlpEncodeList (txPayload tx) ++ r') =
      some ((txPayload tx).length, txPayload tx ++ r') :=
    fun r' => rlpDecodeListHeader_encode _ r' hbound
  have f1 : ∀ r', rlpDecodeNat 8 (rlpEncodeNat tx.chain_id ++ r') =
      some (tx.chain_id, r') :=
    fun r' => rlpDecodeNat_encode 8 tx.chain_id r' hc (by omega)
  have f2 : ∀ r', rlpDecodeNat 8 (rlpEncodeNat tx.nonce ++ r') = some (tx.nonce, r') :=
    fun r' => rlpDecodeNat_encode 8 tx.nonce r' hn (by omega)
  have f3 : ∀ r', rlpDecodeNat 32 (rlpEncodeNat tx.gas_price ++ r') =
      some (tx.gas_price, r') :=
    fun r' => rlpDecodeNat_encode 32 tx.gas_price r' hgp (by omega)
  have f4 : ∀ r', rlpDecodeNat 8 (rlpEncodeNat tx.gas_limit ++ r') =
      some (tx.gas_limit, r') :=
    fun r' => rlpDecodeNat_encode 8 tx.gas_limit r' hgl (by omega)
  have f5 : ∀ r', rlpDecodeKind (rlpEncodeKind tx.kind ++ r') = some (tx.kind, r') :=
    fun r' => rlpDecodeKind_encode tx.kind r' hk
  have f6 : ∀ r', rlpDecodeNat 32 (rlpEncodeNat tx.value ++ r') = some (tx.value, r') :=
    fun r' => rlpDecodeNat_encode 32 tx.value r' hv (by omega)
  have f7 : ∀ r', rlpDecodeBytes (rlpEncodeBytes tx.input ++ r') =
      some (tx.input, r') :=
    fun r' => rlpDecodeBytes_encode tx.input r' (by omega)
  have e8a : ∀ i ∈ tx.access_list, (rlpEncodeAccessItem i).length ≤ 2 ^ 22 :=
    fun i hi' => rlpEncodeAccessItem_length_le i (hitems i hi').1 (hitems i hi').2.1
      (hitems i hi').2.2
  have e8b := concatMap_items_length_le (2 ^ 22) tx.access_list e8a
  have e8c : (concatMap rlpEncodeAccessItem tx.access_list).length < 256 ^ 8 := by
    have : (2 : Nat) ^ 22 * tx.access_list.length ≤ 2 ^ 22 * 2 ^ 16 :=
      Nat.mul_le_mul_left _ (by omega)
    have P16 : (2 : Nat) ^ 16 = 65536 := by norm_num
    have P22 : (2 : Nat) ^ 22 = 4194304 := by norm_num
    omega
  have f8 : ∀ r', rlpDecodeListHeader
      (rlpEncodeList (concatMap rlpEncodeAccessItem tx.access_list) ++ r') =
      some ((concatMap rlpEncodeAccessItem tx.access_list).length,
        concatMap rlpEncodeAccessItem tx.access_list ++ r') :=
    fun r' => rlpDecodeListHeader_encode _ r' e8c
  have f8b : rlpDecodeAccessItems (concatMap rlpEncodeAccessItem tx.access_list).length
      (concatMap rlpEncodeAccessItem tx.access_list) = some tx.access_list := by
    have hfuel : tx.access_list.length ≤
        (concatMap rlpEncodeAccessItem tx.access_list).length :=
      concatMap_length_ge rlpEncodeAccessItem tx.access_list
        (fun i _ => rlpEncodeList_ne_nil _)
    exact rlpDecodeAccessItems_encode tx.access_list hitems _ hfuel
  have f9 : ∀ r', rlpDecodeBool (rlpEncodeBool tx.odd_y_parity ++ r') =
      some (tx.odd_y_parity, r') :=
    fun r' => rlpDecodeBool_encode tx.odd_y_parity r'
  have f10 : ∀ r', rlpDecodeNat 32 (rlpEncodeNat tx.r ++ r') = some (tx.r, r') :=
    fun r' => rlpDecodeNat_encode 32 tx.r r' hr (by omega)
  have f11 : ∀ r', rlpDecodeNat 32 (rlpEncodeNat tx.s ++ r') = some (tx.s, r') := by
    intro r'
    have := rlpDecodeNat_encode 32 tx.s r' hs (by omega)
    exact this
  have f11e : rlpDecodeNat 32 (rlpEncodeNat tx.s) = some (tx.s, []) := by
    have := f11 []
    simpa using this
  simp only [decodeTx, encodeTx, f0, List.take_left, List.drop_left]
  simp only [txPayload, rlpEncodeAccessList, List.append_assoc]
  simp only [f1]
  simp only [f2]
  simp only [f3]
  simp only [f4]
  simp only [f5]
  simp only [f6]
  simp only [f7]
  simp only [f8, List.take_left, List.drop_left]
  simp only [f8b]
  simp only [f9]
  simp only [f10]
  simp only [f11e]
  simp

/-! ## Claim theorems: the transaction envelope -/

/-- C3: for every valid access-list (EIP-2930) signed transaction envelope `x`,
decoding the canonical RLP encoding of `x` yields an envelope equal to `x`,
where equality is the source's `PartialEq` (structural over the protocol
fields, ignoring the cached identity hash): `decode(encode(x)) == x`. The
decoded envelope's cache is empty, the input is consumed exactly, and `txEq`
relates it to `x` whatever `x`'s cache holds. -/
theorem eip2930_rlp_round_trip (tx : Eip2930SignedTransaction)
    (h : txWf tx = true) :
    decodeTx (encodeTx tx) = some ({ tx with hash := none }, []) ∧
      ∀ tx', decodeTx (encodeTx tx) = some (tx', []) → txEq tx' tx = true := by
  have hmain : decodeTx (encodeTx tx) = some ({ tx with hash := none }, []) := by
    have := decodeTx_encodeTx tx h []
    simpa using this
  refine ⟨hmain, ?_⟩
  intro tx' htx'
  rw [hmain] at htx'
  obtain ⟨rfl⟩ : { tx with hash := none } = tx' := by
    injection htx' with h1
    injection h1
  simp [txEq]

/-- C3 witness: the round trip holds at the conformance transaction. -/
theorem eip2930_rlp_round_trip_witness :
    txWf signedDummyRequest = true ∧
      (decodeTx (encodeTx signedDummyRequest) =
          some ({ signedDummyRequest with hash := none }, []) ∧
        ∀ tx', decodeTx (encodeTx signedDummyRequest) = some (tx', []) →
          txEq tx' signedDummyRequest = true) :=
  ⟨by decide, eip2930_rlp_round_trip signedDummyRequest (by decide)⟩

/-- C8: the `PartialEq` of eip2930.rs is structural over the eleven protocol
fields only: two envelopes agreeing on those fields compare equal, with no
condition whatsoever on either envelope's cached hash. -/
theorem eip2930_eq_ignores_hash_cache (a b : Eip2930SignedTransaction)
    (h1 : a.chain_id = b.chain_id) (h2 : a.nonce = b.nonce)
    (h3 : a.gas_price = b.gas_price) (h4 : a.gas_limit = b.gas_limit)
    (h5 : a.kind = b.kind) (h6 : a.value = b.value) (h7 : a.input = b.input)
    (h8 : a.access_list = b.access_list) (h9 : a.odd_y_parity = b.odd_y_parity)
    (h10 : a.r = b.r) (h11 : a.s = b.s) :
    txEq a b = true ∧
      ∀ c1 c2, txEq { a with hash := c1 } { b with hash := c2 } = txEq a b := by
  constructor
  · simp [txEq, h1, h2, h3, h4, h5, h6, h7, h8, h9, h10, h11]
  · intro c1 c2
    rfl

/-- C8 witness: two copies of the conformance envelope, one with a populated
cache and one without, compare equal. -/
theorem eip2930_eq_ignores_hash_cache_witness :
    txEq { signedDummyRequest with hash := some expectedSignedHash }
        signedDummyRequest = true := by
  have h := eip2930_eq_ignores_hash_cache
    { signedDummyRequest with hash := some expectedSignedHash }
    signedDummyRequest rfl rfl rfl rfl rfl rfl rfl rfl rfl rfl rfl
  exact h.1

/-- C4: `hash()` of eip2930.rs equals the Keccak-256 digest of the one-byte
type tag `1` prepended to the envelope's canonical RLP encoding; on an
instance with an unpopulated cache the first call computes and caches exactly
that digest, and every subsequent call returns the cached value unchanged
(no recomputation: the instance after the second call is the instance after
the first, and the returned value is the same). -/
theorem eip2930_hash_memoized (tx : Eip2930SignedTransaction)
    (h : tx.hash = none) :
    (hashGet tx).1 = keccak256 (envelopBytes 1 (encodeTx tx)) ∧
      (hashGet tx).2.hash = some (keccak256 (envelopBytes 1 (encodeTx tx))) ∧
      hashGet (hashGet tx).2 = ((hashGet tx).1, (hashGet tx).2) := by
  simp [hashGet, h, txHashBytes]

/-- C4 witness: the memoization contract at the conformance transaction. -/
theorem eip2930_hash_memoized_witness :
    signedDummyRequest.hash = none ∧
      ((hashGet signedDummyRequest).1 =
          keccak256 (envelopBytes 1 (encodeTx signedDummyRequest)) ∧
        (hashGet signedDummyRequest).2.hash =
          some (keccak256 (envelopBytes 1 (encodeTx signedDummyRequest))) ∧
        hashGet (hashGet signedDummyRequest).2 =
          ((hashGet signedDummyRequest).1, (hashGet signedDummyRequest).2)) :=
  ⟨rfl, eip2930_hash_memoized signedDummyRequest rfl⟩

set_option maxRecDepth 100000

/-- C5: signing the fixed access-list request (chain id 1, nonce 1, gas
price 2, gas limit 3, call to `0xc014ba5e…c014ba5e`, value 4, input `0x1234`,
one access-list entry with two storage keys) with the fixed known private key
produces exactly the fixed canonical byte encoding of
`test_eip2930_signed_transaction_encoding` and exactly the fixed 32-byte hash
`0x1d4f…0611` of `test_eip2930_signed_transaction_hash`. -/
theorem eip2930_signing_conformance :
    encodeTx signedDummyRequest = expectedSignedEncoding ∧
      (hashGet signedDummyRequest).1 = expectedSignedHash := by
  constructor
  · decide
  · decide

/-! ## Claim theorems: the dispatcher -/

/-- C1: when the engine call fails with a `TransactionFailed` error, the
`Response` built by `handle_request` carries no top-level solidity trace if
the failure reason is out of gas, and otherwise carries exactly the one trace
taken out of the failure payload. -/
theorem handle_request_solidity_trace_policy (env : DispatchEnv)
    (req : String) (inv : MethodInvocation) (f : TransactionFailureWithTraces)
    (js : String)
    (hp : env.parse req = .ok inv)
    (he : env.engineCall inv = .ok (.error (.transactionFailed f)))
    (hs : env.serializeResult
      ((takeTraces (takeSolidityTrace (.error (.transactionFailed f)))).map
        (fun r => r.result)) = .ok js) :
    handleRequest env req = .ok
      { json := js,
        solidity_trace :=
          if isOutOfGas f.failure.reason then none
          else some f.failure.solidity_trace,
        traces := f.traces } := by
  simp only [handleRequest, hp, he, hs, extractSolidityTrace, extractTraces]

/-- C1 witness: the trace policy at a concrete out-of-gas failure and at a
concrete revert failure. -/
theorem handle_request_solidity_trace_policy_witness :
    (handleRequest (sampleEngineEnv (.error (.transactionFailed sampleRevertFailure)))
        "req" = .ok ⟨"resultResponse", some 7, [3, 4]⟩) ∧
      (handleRequest
          (sampleEngineEnv (.error (.transactionFailed sampleOutOfGasFailure)))
          "req" = .ok ⟨"resultResponse", none, [3, 4]⟩) := by
  constructor
  · exact handle_request_solidity_trace_policy
      (sampleEngineEnv (.error (.transactionFailed sampleRevertFailure))) "req"
      (.getBalance 1 (some .latest)) sampleRevertFailure "resultResponse"
      rfl rfl rfl
  · exact handle_request_solidity_trace_policy
      (sampleEngineEnv (.error (.transactionFailed sampleOutOfGasFailure))) "req"
      (.getBalance 1 (some .latest)) sampleOutOfGasFailure "resultResponse"
      rfl rfl rfl

/-- C9: on engine success the `Response`'s sub-call trace sequence is the one
taken out of the result object, and on a failure kind other than
`TransactionFailed` (which carries no traces) it is empty. -/
theorem handle_request_subcall_traces (env : DispatchEnv) (req : String)
    (inv : MethodInvocation) (hp : env.parse req = .ok inv) :
    (∀ r js, env.engineCall inv = .ok (.ok r) →
      env.serializeResult (.ok r.result) = .ok js →
      handleRequest env req =
        .ok { json := js, solidity_trace := none, traces := r.traces }) ∧
    (∀ msg js, env.engineCall inv = .ok (.error (.other msg)) →
      env.serializeResult (.error (.other msg)) = .ok js →
      handleRequest env req =
        .ok { json := js, solidity_trace := none, traces := [] }) := by
  constructor
  · intro r js he hs
    simp only [handleRequest, hp, he, extractSolidityTrace, extractTraces,
      takeSolidityTrace, takeTraces, Except.map, hs]
  · intro msg js he hs
    simp only [handleRequest, hp, he, extractSolidityTrace, extractTraces,
      takeSolidityTrace, takeTraces, Except.map, hs]

/-- C9 witness: the sub-call trace extraction at a concrete engine success and
at a concrete non-`TransactionFailed` engine failure. -/
theorem handle_request_subcall_traces_witness :
    (handleRequest (sampleEngineEnv (.ok ⟨"ok", [5, 6]⟩)) "req" =
        .ok ⟨"resultResponse", none, [5, 6]⟩) ∧
      (handleRequest (sampleEngineEnv (.error (.other "limit exceeded"))) "req" =
        .ok ⟨"resultResponse", none, []⟩) := by
  constructor
  · exact (handle_request_subcall_traces
      (sampleEngineEnv (.ok ⟨"ok", [5, 6]⟩)) "req"
      (.getBalance 1 (some .latest)) rfl).1 ⟨"ok", [5, 6]⟩
      "resultResponse" rfl rfl
  · exact (handle_request_subcall_traces
      (sampleEngineEnv (.error (.other "limit exceeded"))) "req"
      (.getBalance 1 (some .latest)) rfl).2 "limit exceeded" "resultResponse" rfl rfl

/-- C10: whenever the raw request fails to deserialize, any `Response` that
`handle_request` produces has no top-level solidity trace, an empty sub-call
trace sequence, and as its body the serialization of the classified JSON-RPC
error (code and message from the classifier, data from re-parsing the raw
request). -/
theorem handle_request_parse_failure_response (env : DispatchEnv) (req msg : String)
    (hp : env.parse req = .error msg) :
    ∀ resp, handleRequest env req = .ok resp →
      resp.solidity_trace = none ∧ resp.traces = [] ∧
        env.serializeError
          { code := (env.classify req msg).errorCode,
            message := (env.classify req msg).errorMessage,
            data := env.parseData req } = .ok resp.json := by
  intro resp hresp
  simp only [handleRequest, hp] at hresp
  rcases hpe : (env.classify req msg).providerError with _ | ⟨m, pe⟩
  · simp only [hpe] at hresp
    rcases hse : env.serializeError
        { code := (env.classify req msg).errorCode,
          message := (env.classify req msg).errorMessage,
          data := env.parseData req } with e | js
    · simp only [hse] at hresp
      exact Except.noConfusion hresp
    · simp only [hse, Except.ok.injEq] at hresp
      subst hresp
      exact ⟨rfl, rfl, rfl⟩
  · simp only [hpe] at hresp
    rcases hlog : env.log m pe with je | lr
    · simp only [hlog] at hresp
      exact Except.noConfusion hresp
    · simp only [hlog] at hresp
      rcases hse : env.serializeError
          { code := (env.classify req msg).errorCode,
            message := (env.classify req msg).errorMessage,
            data := env.parseData req } with e | js
      · simp only [hse] at hresp
        exact Except.noConfusion hresp
      · simp only [hse, Except.ok.injEq] at hresp
        subst hresp
        exact ⟨rfl, rfl, rfl⟩

/-- C10 witness: the deserialization-failure response at a concrete rejecting
environment. -/
theorem handle_request_parse_failure_response_witness :
    (⟨"errorResponse", none, []⟩ : Response).solidity_trace = none ∧
      (⟨"errorResponse", none, []⟩ : Response).traces = [] ∧
      sampleRejectingEnv.serializeError
        ⟨(sampleRejectingEnv.classify "req"
            "data did not match any variant").errorCode,
          (sampleRejectingEnv.classify "req"
            "data did not match any variant").errorMessage,
          sampleRejectingEnv.parseData "req"⟩ = .ok "errorResponse" :=
  handle_request_parse_failure_response sampleRejectingEnv "req"
    "data did not match any variant" rfl ⟨"errorResponse", none, []⟩ rfl

/-- C7: when deserialization fails and the classifier yields a
(method, structured error) pair, the dispatcher's best-effort diagnostic log
cannot change the outcome: whatever result `r` the logger itself returns
(including a failure), the classified error response is still returned. -/
theorem handle_request_logging_best_effort (env : DispatchEnv)
    (req msg m pe : String) (r : Except String Unit) (js : String)
    (hp : env.parse req = .error msg)
    (hc : (env.classify req msg).providerError = some (m, pe))
    (hl : env.log m pe = .ok r)
    (hs : env.serializeError
      { code := (env.classify req msg).errorCode,
        message := (env.classify req msg).errorMessage,
        data := env.parseData req } = .ok js) :
    handleRequest env req = .ok { json := js, solidity_trace := none, traces := [] } := by
  simp only [handleRequest, hp, hc, hl, hs]

/-- C7 witness: the classified response is returned even though the logger
call itself fails. -/
theorem handle_request_logging_best_effort_witness :
    sampleRejectingEnv.log "eth_getBalance" "invalid block spec" =
        .ok (.error "logger failed") ∧
      handleRequest sampleRejectingEnv "req" =
        .ok ⟨"errorResponse", none, []⟩ :=
  ⟨rfl, handle_request_logging_best_effort sampleRejectingEnv "req"
    "data did not match any variant" "eth_getBalance" "invalid block spec"
    (.error "logger failed") "errorResponse" rfl rfl rfl rfl⟩

/-! ## Claim theorems: method-invocation serialization -/

/-- C2 counterexample: deserializing an estimate-gas request whose trailing
block parameter is omitted fills the parameter with `"pending"` — exactly as
`test_serde_eth_estimate_gas` asserts — and therefore does not equal the
invocation with the parameter explicitly set to `"latest"`. -/
theorem estimate_gas_omitted_block_is_pending_not_latest :
    deserializeInvocation "eth_estimateGas" [.callReq sampleCallRequest] =
        some (.estimateGas sampleCallRequest (some .pending)) ∧
      deserializeInvocation "eth_estimateGas" [.callReq sampleCallRequest] ≠
        some (.estimateGas sampleCallRequest (some .latest)) := by
  constructor
  · rfl
  · decide

/-- C2 (amended): an omitted trailing block parameter is filled on
deserialization with the method's documented default — `"latest"` for the
balance, code, transaction-count and call queries, but `"pending"` for the
estimate-gas query — and the resulting invocation equals, and serializes
identically to, the invocation with that default set explicitly. -/
theorem omitted_block_parameter_defaults :
    (∀ a, deserializeInvocation "eth_getBalance" [.address a] =
        some (.getBalance a (some .latest)) ∧
      (deserializeInvocation "eth_getBalance" [.address a]).map serializeInvocation =
        some (serializeInvocation (.getBalance a (some .latest)))) ∧
    (∀ a, deserializeInvocation "eth_getCode" [.address a] =
        some (.getCode a (some .latest)) ∧
      (deserializeInvocation "eth_getCode" [.address a]).map serializeInvocation =
        some (serializeInvocation (.getCode a (some .latest)))) ∧
    (∀ a, deserializeInvocation "eth_getTransactionCount" [.address a] =
        some (.getTransactionCount a (some .latest)) ∧
      (deserializeInvocation "eth_getTransactionCount"
          [.address a]).map serializeInvocation =
        some (serializeInvocation (.getTransactionCount a (some .latest)))) ∧
    (∀ tx, deserializeInvocation "eth_call" [.callReq tx] =
        some (.callMethod tx (some .latest) none) ∧
      (deserializeInvocation "eth_call" [.callReq tx]).map serializeInvocation =
        some (serializeInvocation (.callMethod tx (some .latest) none))) ∧
    (∀ tx, deserializeInvocation "eth_estimateGas" [.callReq tx] =
        some (.estimateGas tx (some .pending)) ∧
      (deserializeInvocation "eth_estimateGas" [.callReq tx]).map serializeInvocation =
        some (serializeInvocation (.estimateGas tx (some .pending)))) := by
  refine ⟨fun a => ⟨rfl, rfl⟩, fun a => ⟨?_, ?_⟩, fun a => ⟨?_, ?_⟩,
    fun tx => ⟨?_, ?_⟩, fun tx => ⟨?_, ?_⟩⟩ <;>
    simp [deserializeInvocation]

/-- C6: a request using the documented alias method name `personal_sign`
deserializes to exactly the same invocation as the identical request using the
canonical name `eth_sign`, whatever its params array is. -/
theorem personal_sign_aliases_eth_sign (params : List ParamValue) :
    deserializeInvocation "personal_sign" params =
      deserializeInvocation "eth_sign" params := by
  simp [deserializeInvocation]

end EdrSpec
